import Mathlib

/-!
Verification of the cardinal-solana-indexer-plugin ingestion and
write-ordering pipeline.

The definitions below are a shallow embedding of the Rust sources:

* `src/postgres_client/mod.rs` — the `SimplePostgresClient` account and
  slot upsert statements and their execution paths;
* `src/geyser_plugin_postgres.rs` — the plugin-level `update_account`
  startup-skip check;
* `src/accounts_selector.rs` — `AccountsSelector`;
* `src/parallel_client.rs` — the `ParallelClient` producer operations and
  the end-of-startup barrier;
* `src/spl_token.rs` — SPL token account decoding used by the secondary
  token indexes.

Machine integers (`i64`/`u64`) are embedded as `Int`/`Nat`: none of the
verified paths performs wrapping arithmetic, only comparisons and
saturating subtraction (which on `u64` coincides with `Nat` subtraction).
Byte vectors (`Vec<u8>`) are embedded as `List Nat`.
-/

/-- Embedding of `DbAccountInfo` (src/postgres_client/mod.rs lines 68-79).
`i64` fields become `Int`, `Vec<u8>` becomes `List Nat`. -/
structure DbAccountInfo where
  pubkey : List Nat
  lamports : Int
  owner : List Nat
  executable : Bool
  rent_epoch : Int
  data : List Nat
  slot : Int
  write_version : Int
  txn_signature : Option (List Nat)
  deriving Repr, DecidableEq

/-- The WHERE guard of the conflict branch of the single-row account upsert
statement (`build_single_account_upsert_statement`, mod.rs lines 342-347):
`acct.slot < excluded.slot OR (acct.slot = excluded.slot AND
acct.write_version < excluded.write_version)`. `acct` is the stored row,
`excluded` the incoming row. -/
def singleUpsertGuard (acct excluded : DbAccountInfo) : Bool :=
  decide (acct.slot < excluded.slot) ||
    (decide (acct.slot = excluded.slot) && decide (acct.write_version < excluded.write_version))

/-- The WHERE guard of the conflict branch of the multi-row bulk account
insert statement (`build_bulk_account_insert_statement`, mod.rs lines
296-340): `acct.slot < excluded.slot OR (acct.slot = excluded.slot AND
acct.write_version < excluded.write_version)`. -/
def bulkUpsertGuard (acct excluded : DbAccountInfo) : Bool :=
  decide (acct.slot < excluded.slot) ||
    (decide (acct.slot = excluded.slot) && decide (acct.write_version < excluded.write_version))

/-- Executing the single-row `INSERT ... ON CONFLICT (pubkey) DO UPDATE ...
WHERE <guard>` statement against the row stored for one pubkey.  Returns
the new stored row together with the number of rows affected: an insert or
a conflict-update touches 1 row, a conflict whose guard fails touches 0. -/
def accountUpsertExecute (stored : Option DbAccountInfo) (excluded : DbAccountInfo) :
    Option DbAccountInfo × Nat :=
  match stored with
  | none => (some excluded, 1)
  | some acct => if singleUpsertGuard acct excluded then (some excluded, 1) else (some acct, 0)

/-- The stored row after a sequence of single-row upserts for one pubkey. -/
def applySingleUpserts (stored : Option DbAccountInfo) (l : List DbAccountInfo) :
    Option DbAccountInfo :=
  l.foldl (fun st i => (accountUpsertExecute st i).1) stored

/-- The strict (slot, write_version) lexicographic order underlying the
monotonic merge rule: `a` precedes `b`. -/
def keyLt (a b : DbAccountInfo) : Prop :=
  a.slot < b.slot ∨ (a.slot = b.slot ∧ a.write_version < b.write_version)

instance (a b : DbAccountInfo) : Decidable (keyLt a b) := by
  unfold keyLt; infer_instance

theorem singleUpsertGuard_eq_true_iff (a b : DbAccountInfo) :
    singleUpsertGuard a b = true ↔ keyLt a b := by
  simp [singleUpsertGuard, keyLt]

theorem bulkUpsertGuard_eq_singleUpsertGuard (a b : DbAccountInfo) :
    bulkUpsertGuard a b = singleUpsertGuard a b := rfl

theorem keyLt_asymm {a b : DbAccountInfo} (h : keyLt a b) : ¬ keyLt b a := by
  rcases h with h | ⟨h1, h2⟩ <;> rintro (h' | ⟨h1', h2'⟩) <;> omega

theorem keyLt_trans {a b c : DbAccountInfo} (hab : keyLt a b) (hbc : keyLt b c) :
    keyLt a c := by
  rcases hab with h | ⟨h1, h2⟩ <;> rcases hbc with h' | ⟨h1', h2'⟩ <;>
    [exact Or.inl (by omega); exact Or.inl (by omega);
     exact Or.inl (by omega); exact Or.inr (by constructor <;> omega)]

/-- One upsert step keeps a stored row that dominates the incoming row. -/
theorem accountUpsertExecute_keep {s i : DbAccountInfo} (h : ¬ keyLt s i) :
    (accountUpsertExecute (some s) i).1 = some s := by
  simp [accountUpsertExecute, singleUpsertGuard_eq_true_iff, h]

/-- One upsert step replaces a stored row dominated by the incoming row. -/
theorem accountUpsertExecute_replace {s i : DbAccountInfo} (h : keyLt s i) :
    (accountUpsertExecute (some s) i).1 = some i := by
  simp [accountUpsertExecute, singleUpsertGuard_eq_true_iff, h]

/-- Invariant lemma for the fold of single-row upserts: if every element of
the remaining list is either the dominant record `m` or strictly below it,
and the current stored row is `m` itself or is strictly below `m` with `m`
still to come, then the fold ends at `m`. -/
theorem applySingleUpserts_dominated :
    ∀ (l : List DbAccountInfo) (m : DbAccountInfo) (st : Option DbAccountInfo),
      (∀ x ∈ l, x = m ∨ keyLt x m) →
      (st = some m ∨ (m ∈ l ∧ (st = none ∨ ∃ s, st = some s ∧ keyLt s m))) →
      applySingleUpserts st l = some m := by
  intro l
  induction l with
  | nil =>
    intro m st _ hst
    rcases hst with hst | ⟨hm, _⟩
    · simpa [applySingleUpserts] using hst
    · exact absurd hm (List.not_mem_nil m)
  | cons a l ih =>
    intro m st hdom hst
    have hdom' : ∀ x ∈ l, x = m ∨ keyLt x m := fun x hx => hdom x (List.mem_cons_of_mem a hx)
    have hstep : applySingleUpserts st (a :: l) =
        applySingleUpserts (accountUpsertExecute st a).1 l := rfl
    rw [hstep]
    rcases hst with hst | ⟨hm, hcur⟩
    · -- the stored row is already m; a is m or dominated, so it stays m
      subst hst
      rcases hdom a (List.mem_cons_self a l) with ha | ha
      · subst ha
        have : (accountUpsertExecute (some a) a).1 = some a :=
          accountUpsertExecute_keep (fun h => keyLt_asymm h h)
        rw [this]
        exact ih a (some a) hdom' (Or.inl rfl)
      · rw [accountUpsertExecute_keep (keyLt_asymm ha)]
        exact ih m (some m) hdom' (Or.inl rfl)
    · -- m still to come in a :: l
      by_cases ham : a = m
      · -- the head is m itself: after this step the stored row is m
        subst ham
        rcases hcur with hcur | ⟨s, hcur, hs⟩
        · subst hcur
          exact ih a (some a) hdom' (Or.inl rfl)
        · subst hcur
          rw [accountUpsertExecute_replace hs]
          exact ih a (some a) hdom' (Or.inl rfl)
      · -- the head is dominated; m occurs in the tail
        have hma : keyLt a m := (hdom a (List.mem_cons_self a l)).resolve_left ham
        have hml : m ∈ l := by
          rcases List.mem_cons.mp hm with h | h
          · exact absurd h.symm ham
          · exact h
        rcases hcur with hcur | ⟨s, hcur, hs⟩
        · subst hcur
          exact ih m (some a) hdom' (Or.inr ⟨hml, Or.inr ⟨a, rfl, hma⟩⟩)
        · subst hcur
          by_cases hrep : keyLt s a
          · rw [accountUpsertExecute_replace hrep]
            exact ih m (some a) hdom' (Or.inr ⟨hml, Or.inr ⟨a, rfl, hma⟩⟩)
          · rw [accountUpsertExecute_keep hrep]
            exact ih m (some s) hdom' (Or.inr ⟨hml, Or.inr ⟨s, rfl, hs⟩⟩)

/-- C1: on the single-row upsert path, an incoming record replaces the
stored one iff (incoming.slot, incoming.write_version) is lexicographically
greater than the stored pair (otherwise the stored row is kept and 0 rows
are affected), and therefore any sequence of records for the same pubkey
containing a record `m` that strictly dominates all others converges to
`m` regardless of the order of application. -/
theorem single_upsert_converges_to_max (l : List DbAccountInfo) (m : DbAccountInfo)
    (hm : m ∈ l) (hdom : ∀ x ∈ l, x = m ∨ keyLt x m) :
    applySingleUpserts none l = some m ∧
    (∀ s i : DbAccountInfo,
      accountUpsertExecute (some s) i =
        if keyLt s i then (some i, 1) else (some s, 0)) := by
  refine ⟨applySingleUpserts_dominated l m none hdom (Or.inr ⟨hm, Or.inl rfl⟩), ?_⟩
  intro s i
  by_cases h : keyLt s i <;>
    simp [accountUpsertExecute, singleUpsertGuard_eq_true_iff, h]

/-- Two sample records used by the concrete witnesses below. -/
def sampleRecordLow : DbAccountInfo :=
  { pubkey := [1], lamports := 50, owner := [2], executable := false
    rent_epoch := 0, data := [7], slot := 3, write_version := 9, txn_signature := none }

def sampleRecordHigh : DbAccountInfo :=
  { pubkey := [1], lamports := 100, owner := [2], executable := false
    rent_epoch := 0, data := [8], slot := 5, write_version := 1, txn_signature := none }

/-- C1 witness: applying (slot=3,wv=9) and (slot=5,wv=1) in either order
converges to the slot-5 record. -/
theorem single_upsert_converges_to_max_witness :
    applySingleUpserts none [sampleRecordLow, sampleRecordHigh] = some sampleRecordHigh ∧
    applySingleUpserts none [sampleRecordHigh, sampleRecordLow] = some sampleRecordHigh := by
  constructor
  · exact (single_upsert_converges_to_max [sampleRecordLow, sampleRecordHigh]
      sampleRecordHigh (by simp) (by intro x hx; fin_cases hx <;> decide)).1
  · exact (single_upsert_converges_to_max [sampleRecordHigh, sampleRecordLow]
      sampleRecordHigh (by simp) (by intro x hx; fin_cases hx <;> decide)).1

/-! ### Bulk account insert path (startup batch optimizer) -/

/-- Per-row conflict resolution of the multi-row bulk insert statement
(`build_bulk_account_insert_statement`): an insert for a fresh pubkey, and
on conflict the guarded update of the stored row. -/
def bulkRowConflictApply (stored : Option DbAccountInfo) (excluded : DbAccountInfo) :
    Option DbAccountInfo :=
  match stored with
  | none => some excluded
  | some acct => if bulkUpsertGuard acct excluded then some excluded else some acct

/-- The stored row for one pubkey after a whole bulk batch is executed:
Postgres processes the VALUES rows in order against the current table
state. -/
def bulkInsertApply (stored : Option DbAccountInfo) (rows : List DbAccountInfo) :
    Option DbAccountInfo :=
  rows.foldl bulkRowConflictApply stored

/-- Bulk application as claim C2 words it: every buffered row is applied to
the store without the (slot, write_version) greater-than guard, i.e. each
row unconditionally replaces the stored one.  Stated only to be compared
with `bulkInsertApply`, the embedding of the source statement. -/
def bulkInsertApplyUnguardedClaim (stored : Option DbAccountInfo)
    (rows : List DbAccountInfo) : Option DbAccountInfo :=
  rows.foldl (fun _ excluded => some excluded) stored

/-- C2 counterexample: the bulk insert statement does carry the monotonic
guard.  With the slot-5 record stored, bulk-inserting the slot-3 record
keeps the slot-5 record, whereas guard-free application would replace it. -/
theorem bulk_insert_unguarded_counterexample :
    bulkInsertApply (some sampleRecordHigh) [sampleRecordLow] ≠
      bulkInsertApplyUnguardedClaim (some sampleRecordHigh) [sampleRecordLow] := by
  decide

theorem bulkRowConflictApply_eq_single (st : Option DbAccountInfo) (r : DbAccountInfo) :
    bulkRowConflictApply st r = (accountUpsertExecute st r).1 := by
  cases st with
  | none => rfl
  | some a =>
    by_cases h : singleUpsertGuard a r = true <;>
      simp [bulkRowConflictApply, accountUpsertExecute,
        bulkUpsertGuard_eq_singleUpsertGuard, h]

/-- C2 amended: the rows of every bulk-flushed batch are applied with the
same per-row (slot, write_version) monotonic guard as the single-row upsert
path — the WHERE clauses of the two statements coincide, and the batch
result equals folding the single-row upsert over the batch (what the bulk
path does bypass is the per-row audit fallback, proved with C6). -/
theorem bulk_insert_keeps_monotonic_guard (stored : Option DbAccountInfo)
    (rows : List DbAccountInfo) :
    bulkInsertApply stored rows = applySingleUpserts stored rows ∧
    ∀ a b : DbAccountInfo, bulkUpsertGuard a b = singleUpsertGuard a b := by
  refine ⟨?_, fun a b => rfl⟩
  induction rows generalizing stored with
  | nil => rfl
  | cons r rows ih =>
    show bulkInsertApply (bulkRowConflictApply stored r) rows =
      applySingleUpserts ((accountUpsertExecute stored r).1) rows
    rw [bulkRowConflictApply_eq_single]
    exact ih _

/-! ### SPL token decoding (src/spl_token.rs) and the secondary token indexes -/

/-- Byte value of the constant `TOKEN_PROGRAM_ID`
(base58 `TokenkegQfeZyiNwAJbNbGKPFXCWuBvf9Ss623VQ5DA`). -/
def TOKEN_PROGRAM_ID : List Nat :=
  [6, 221, 246, 225, 215, 101, 161, 147, 217, 203, 225, 70, 206, 235, 121, 172,
   28, 180, 133, 237, 95, 91, 55, 145, 58, 140, 245, 133, 126, 255, 0, 169]

/-- Byte value of the constant `TOKENZ_PROGRAM_ID`
(base58 `TokenzQdBNbLqP5VEhdkAS6EPFLC1PHnBqCXEpPxuEb`). -/
def TOKENZ_PROGRAM_ID : List Nat :=
  [6, 221, 246, 225, 238, 117, 143, 222, 24, 66, 93, 188, 228, 108, 205, 218,
   182, 26, 252, 77, 131, 185, 13, 39, 254, 189, 249, 40, 216, 161, 139, 252]

/-- `TokenAccount::valid_token_program` (src/spl_token.rs). -/
def valid_token_program (programId : List Nat) : Bool :=
  programId == TOKENZ_PROGRAM_ID || programId == TOKEN_PROGRAM_ID

/-- `TokenAccount::valid_account_data`: the data is exactly 165 bytes long,
or byte 165 equals the account discriminator 2. -/
def valid_account_data (accountData : List Nat) : Bool :=
  accountData.length == 165 || (accountData.get? 165).getD 0 == 2

/-- `TokenAccount::unpack_pubkey_unchecked`: the 32 bytes at `offset`. -/
def unpack_pubkey_unchecked (accountData : List Nat) (offset : Nat) : List Nat :=
  (accountData.drop offset).take 32

/-- `TokenAccount::unpack_account_owner`: owner pubkey at offset 32. -/
def unpack_account_owner (accountData : List Nat) : Option (List Nat) :=
  if valid_account_data accountData then
    some (unpack_pubkey_unchecked accountData 32)
  else none

/-- `TokenAccount::unpack_account_mint`: mint pubkey at offset 0. -/
def unpack_account_mint (accountData : List Nat) : Option (List Nat) :=
  if valid_account_data accountData then
    some (unpack_pubkey_unchecked accountData 0)
  else none

/-- `TokenSecondaryIndexEntry`
(src/postgres_client/postgres_client_token_account_index.rs). -/
structure TokenSecondaryIndexEntry where
  secondary_key : List Nat
  account_key : List Nat
  slot : Int
  deriving Repr, DecidableEq

/-- The single token index upsert statement: keyed by
(secondary_key, account_key), `DO UPDATE SET slot=excluded.slot WHERE
index.slot < excluded.slot`. -/
def tokenIndexUpsert (table : List TokenSecondaryIndexEntry)
    (e : TokenSecondaryIndexEntry) : List TokenSecondaryIndexEntry :=
  if table.any (fun r => r.secondary_key == e.secondary_key && r.account_key == e.account_key) then
    table.map (fun r =>
      if r.secondary_key == e.secondary_key && r.account_key == e.account_key then
        if decide (r.slot < e.slot) then { r with slot := e.slot } else r
      else r)
  else table ++ [e]

/-! ### The per-pubkey view of the account-related tables -/

/-- The tables touched by `upsert_account_internal`, restricted to a single
account pubkey: the `account` row, the `account_audit` rows, and the two
token secondary indexes. -/
structure AccountsTable where
  row : Option DbAccountInfo
  audit : List DbAccountInfo
  ownerIndex : List TokenSecondaryIndexEntry
  mintIndex : List TokenSecondaryIndexEntry
  deriving Repr, DecidableEq

/-- `SimplePostgresClient::insert_account_audit` (mod.rs lines 429-456):
an unconditioned INSERT into `account_audit`. -/
def insert_account_audit (st : AccountsTable) (account : DbAccountInfo) : AccountsTable :=
  { st with audit := st.audit ++ [account] }

/-- `SimplePostgresClient::update_token_owner_index`
(postgres_client_token_account_index.rs lines 221-236). -/
def update_token_owner_index (st : AccountsTable) (account : DbAccountInfo) : AccountsTable :=
  if valid_token_program account.owner then
    match unpack_account_owner account.data with
    | some ownerKey =>
      { st with ownerIndex :=
          tokenIndexUpsert st.ownerIndex ⟨ownerKey, account.pubkey, account.slot⟩ }
    | none => st
  else st

/-- `SimplePostgresClient::update_token_mint_index`
(postgres_client_token_account_index.rs lines 239-254). -/
def update_token_mint_index (st : AccountsTable) (account : DbAccountInfo) : AccountsTable :=
  if valid_token_program account.owner then
    match unpack_account_mint account.data with
    | some mintKey =>
      { st with mintIndex :=
          tokenIndexUpsert st.mintIndex ⟨mintKey, account.pubkey, account.slot⟩ }
    | none => st
  else st

/-- Which optional prepared statements the client holds, i.e. the
`is_some` view of `insert_account_audit_stmt`,
`insert_token_owner_index_stmt` and `insert_token_mint_index_stmt`
(set from `store_account_historical_data`, `index_token_owner` and
`index_token_mint` in `SimplePostgresClient::new`). -/
structure ClientStatements where
  insert_account_audit_stmt : Bool
  insert_token_owner_index_stmt : Bool
  insert_token_mint_index_stmt : Bool
  deriving Repr, DecidableEq

/-- `SimplePostgresClient::upsert_account_internal` (mod.rs lines 459-506)
on the success path of the database executions: run the single-row upsert
statement; when it affects 0 rows and the audit statement is present,
insert the record into `account_audit`; then run the token index updates
when their statements are present.  Returns the rows affected by the
account upsert alongside the new table state. -/
def upsert_account_internal (stmts : ClientStatements) (st : AccountsTable)
    (account : DbAccountInfo) : Except String (AccountsTable × Nat) :=
  let res := accountUpsertExecute st.row account
  let st1 : AccountsTable := { st with row := res.1 }
  let st2 := if res.2 == 0 && stmts.insert_account_audit_stmt then
    insert_account_audit st1 account else st1
  let st3 := if stmts.insert_token_owner_index_stmt then
    update_token_owner_index st2 account else st2
  let st4 := if stmts.insert_token_mint_index_stmt then
    update_token_mint_index st3 account else st3
  .ok (st4, res.2)

/-- C6: on the single-row path, when the monotonic guard discards the
incoming write (0 rows affected) the stored row is unchanged and the call
returns Ok; the discarded record is inserted into `account_audit` exactly
when historical-audit storage is enabled; and with the token index
statements absent no other table changes. -/
theorem discarded_write_goes_to_audit (stmts : ClientStatements)
    (st : AccountsTable) (s i : DbAccountInfo)
    (hrow : st.row = some s) (hdisc : ¬ keyLt s i)
    (hown : stmts.insert_token_owner_index_stmt = false)
    (hmint : stmts.insert_token_mint_index_stmt = false) :
    ∃ st', upsert_account_internal stmts st i = .ok (st', 0) ∧
      st'.row = st.row ∧
      st'.audit = (if stmts.insert_account_audit_stmt then st.audit ++ [i] else st.audit) ∧
      st'.ownerIndex = st.ownerIndex ∧
      st'.mintIndex = st.mintIndex := by
  have hexec : accountUpsertExecute (some s) i = (some s, 0) := by
    simp [accountUpsertExecute, singleUpsertGuard_eq_true_iff, hdisc]
  cases haudit : stmts.insert_account_audit_stmt
  · refine ⟨{ st with row := some s }, ?_⟩
    simp [upsert_account_internal, hexec, haudit, hown, hmint, hrow]
  · refine ⟨{ st with row := some s, audit := st.audit ++ [i] }, ?_⟩
    simp [upsert_account_internal, hexec, haudit, hown, hmint, insert_account_audit, hrow]

/-- C6 witness: discarding the slot-3 record against the stored slot-5
record inserts it into the audit table when auditing is enabled. -/
theorem discarded_write_goes_to_audit_witness :
    ∃ st', upsert_account_internal ⟨true, false, false⟩
        ⟨some sampleRecordHigh, [], [], []⟩ sampleRecordLow = .ok (st', 0) ∧
      st'.row = some sampleRecordHigh ∧
      st'.audit = [sampleRecordLow] ∧
      st'.ownerIndex = [] ∧
      st'.mintIndex = [] := by
  obtain ⟨st', h1, h2, h3, h4, h5⟩ := discarded_write_goes_to_audit
    ⟨true, false, false⟩ ⟨some sampleRecordHigh, [], [], []⟩
    sampleRecordHigh sampleRecordLow rfl (by decide) rfl rfl
  exact ⟨st', h1, by simpa using h2, by simpa using h3, h4, h5⟩

/-! ### Slot status upserts (mod.rs lines 393-427, 605-628, 740-751) -/

/-- The `SlotStatus` enum of the geyser plugin interface and its `as_str`
rendering. -/
inductive SlotStatus where
  | processed
  | rooted
  | confirmed
  deriving Repr, DecidableEq

def SlotStatus.as_str : SlotStatus → String
  | .processed => "processed"
  | .rooted => "rooted"
  | .confirmed => "confirmed"

/-- A row of the `slot` table (keyed by `slot`). -/
structure SlotRow where
  slot : Int
  parent : Option Int
  status : String
  deriving Repr, DecidableEq

/-- Executing `build_slot_upsert_statement_with_parent`: `INSERT INTO slot
(slot, parent, status, updated_on) VALUES ... ON CONFLICT (slot) DO UPDATE
SET parent=excluded.parent, status=excluded.status` — no WHERE guard, so a
conflicting row is always updated.  Works on the row stored for one slot;
returns the rows affected. -/
def slotUpsertWithParentExecute (stored : Option SlotRow) (slot parent : Int)
    (status : String) : Option SlotRow × Nat :=
  match stored with
  | none => (some ⟨slot, some parent, status⟩, 1)
  | some r => (some { r with parent := some parent, status := status }, 1)

/-- Executing `build_slot_upsert_statement_without_parent`: `INSERT INTO
slot (slot, status, updated_on) VALUES ... ON CONFLICT (slot) DO UPDATE SET
status=excluded.status` — the parent column is untouched on conflict and
NULL on insert. -/
def slotUpsertWithoutParentExecute (stored : Option SlotRow) (slot : Int)
    (status : String) : Option SlotRow × Nat :=
  match stored with
  | none => (some ⟨slot, none, status⟩, 1)
  | some r => (some { r with status := status }, 1)

/-- `SimplePostgresClient::upsert_slot_status_internal` (mod.rs lines
605-628) combined with the statement choice of `update_slot_status` (lines
740-751): execute the with-parent statement when a parent is given and the
without-parent statement otherwise, then `assert_eq!(1, rows)`.  The
assertion is modelled as the error branch. -/
def upsert_slot_status_internal (stored : Option SlotRow) (slot : Nat)
    (parent : Option Nat) (status : SlotStatus) : Except String (Option SlotRow) :=
  let slotI : Int := (slot : Int)
  let res := match parent with
    | some p => slotUpsertWithParentExecute stored slotI (p : Int) status.as_str
    | none => slotUpsertWithoutParentExecute stored slotI status.as_str
  if res.2 = 1 then .ok res.1
  else .error "assertion failed: Expected one rows to be updated a time"

/-- C9: every execution of a slot upsert statement affects exactly one row
— both slot statements insert a fresh row or unconditionally update the
single conflicting row keyed by slot — so the `assert_eq!(1, rows)` in
`upsert_slot_status_internal` never fires. -/
theorem slot_upsert_affects_exactly_one_row (stored : Option SlotRow) (slot : Nat)
    (parent : Option Nat) (status : SlotStatus) :
    (∀ p : Int, (slotUpsertWithParentExecute stored (slot : Int) p status.as_str).2 = 1) ∧
    (slotUpsertWithoutParentExecute stored (slot : Int) status.as_str).2 = 1 ∧
    ∃ row, upsert_slot_status_internal stored slot parent status = .ok row := by
  refine ⟨fun p => ?_, ?_, ?_⟩
  · cases stored <;> rfl
  · cases stored <;> rfl
  · cases parent with
    | none =>
      cases stored <;> exact ⟨_, rfl⟩
    | some p =>
      cases stored <;> exact ⟨_, rfl⟩

/-- The pure next stored row of `update_slot_status` for one slot (the
`.ok` payload of `upsert_slot_status_internal`). -/
def slotUpsertApply (stored : Option SlotRow) (slot : Nat) (parent : Option Nat)
    (status : SlotStatus) : Option SlotRow :=
  match parent with
  | some p => (slotUpsertWithParentExecute stored (slot : Int) (p : Int) status.as_str).1
  | none => (slotUpsertWithoutParentExecute stored (slot : Int) status.as_str).1

/-- The stored row for one slot after a sequence of
`update_slot_status(slot, parent?, status)` calls. -/
def applySlotUpdates (slot : Nat) (stored : Option SlotRow)
    (updates : List (Option Nat × SlotStatus)) : Option SlotRow :=
  updates.foldl (fun st u => slotUpsertApply st slot u.1 u.2) stored

theorem slotUpsertApply_isSome (stored : Option SlotRow) (slot : Nat)
    (parent : Option Nat) (status : SlotStatus) :
    ∃ r, slotUpsertApply stored slot parent status = some r ∧
      r.status = status.as_str ∧
      ∀ p, parent = some p → r.parent = some (p : Int) := by
  cases parent with
  | none => cases stored <;> exact ⟨_, rfl, rfl, by intro p h; cases h⟩
  | some p =>
    cases stored <;> exact ⟨_, rfl, rfl, by intro q h; cases h; rfl⟩

theorem applySlotUpdates_last (slot : Nat) :
    ∀ (updates : List (Option Nat × SlotStatus)) (stored : Option SlotRow),
      updates ≠ [] →
      ∃ r, applySlotUpdates slot stored updates = some r ∧
        some r.status = updates.getLast?.map (fun u => u.2.as_str) := by
  intro updates
  induction updates with
  | nil => intro stored h; exact absurd rfl h
  | cons u rest ih =>
    intro stored _
    cases rest with
    | nil =>
      obtain ⟨r, hr1, hr2, _⟩ := slotUpsertApply_isSome stored slot u.1 u.2
      exact ⟨r, hr1, by simp [hr2]⟩
    | cons v rest' =>
      obtain ⟨r, hr1, hr2⟩ :=
        ih (slotUpsertApply stored slot u.1 u.2) (List.cons_ne_nil v rest')
      exact ⟨r, hr1, by rw [hr2, List.getLast?_cons_cons]⟩

/-- C8: `update_slot_status` overwrites the stored status unconditionally
(and the parent when one is given) with no ordering guard, so after any
nonempty sequence of updates for the same slot the stored status is the
status of the last update applied. -/
theorem slot_status_last_write_wins (slot : Nat) (stored : Option SlotRow)
    (updates : List (Option Nat × SlotStatus)) (h : updates ≠ []) :
    (∀ (st : Option SlotRow) (parent : Option Nat) (status : SlotStatus),
       ∃ r, slotUpsertApply st slot parent status = some r ∧
         r.status = status.as_str ∧
         ∀ p, parent = some p → r.parent = some (p : Int)) ∧
    ∃ r, applySlotUpdates slot stored updates = some r ∧
      r.status = (updates.getLast h).2.as_str := by
  refine ⟨fun st parent status => slotUpsertApply_isSome st slot parent status, ?_⟩
  obtain ⟨r, h1, h2⟩ := applySlotUpdates_last slot updates stored h
  refine ⟨r, h1, ?_⟩
  rw [List.getLast?_eq_getLast updates h] at h2
  simpa using h2

/-- C8 witness: for slot 7, applying processed (parent 3) then rooted (no
parent) leaves status "rooted" and keeps parent 3. -/
theorem slot_status_last_write_wins_witness :
    ∃ r, applySlotUpdates 7 none [(some 3, .processed), (none, .rooted)] = some r ∧
      r.status = SlotStatus.as_str .rooted := by
  obtain ⟨_, h⟩ := slot_status_last_write_wins 7 none
    [(some 3, .processed), (none, .rooted)] (by decide)
  simpa using h

/-! ### The buffered startup bulk path (mod.rs lines 531-571) -/

/-- The buffered state of `SimplePostgresClient` relevant to
`bulk_insert_accounts`. -/
structure BufferedClient where
  batch_size : Nat
  pending_account_updates : List DbAccountInfo
  deriving Repr, DecidableEq

/-- `SimplePostgresClient::bulk_insert_accounts`: when the buffer has
reached `batch_size`, build the VALUES list, run the multi-row insert
statement (`querySucceeds` is the outcome of that database call), clear
`pending_account_updates`, and only then inspect the result, returning an
`AccountsUpdateError` on failure.  The stored row (single-pubkey view) is
threaded through; a failed statement leaves the store unchanged. -/
def bulk_insert_accounts (querySucceeds : Bool) (c : BufferedClient)
    (stored : Option DbAccountInfo) :
    BufferedClient × Option DbAccountInfo × Except String Unit :=
  if c.pending_account_updates.length = c.batch_size then
    let stored' := if querySucceeds then bulkInsertApply stored c.pending_account_updates
      else stored
    let c' := { c with pending_account_updates := [] }
    if querySucceeds then (c', stored', .ok ())
    else (c', stored',
      .error "Failed to persist the update of account to the PostgreSQL database.")
  else (c, stored, .ok ())

/-- C10: when the buffer is full, `bulk_insert_accounts` clears
`pending_account_updates` before inspecting the result of the multi-row
insert: on failure the buffered records are dropped, the error is returned
and the store is left unchanged (nothing is re-applied), and the buffer
ends in the same empty state as on success. -/
theorem bulk_insert_clears_buffer_before_result (c : BufferedClient)
    (stored : Option DbAccountInfo)
    (hfull : c.pending_account_updates.length = c.batch_size) :
    (bulk_insert_accounts false c stored).1.pending_account_updates = [] ∧
    (bulk_insert_accounts false c stored).2.2 =
      .error "Failed to persist the update of account to the PostgreSQL database." ∧
    (bulk_insert_accounts false c stored).2.1 = stored ∧
    (bulk_insert_accounts true c stored).1.pending_account_updates = [] ∧
    (bulk_insert_accounts true c stored).2.2 = .ok () := by
  refine ⟨?_, ?_, ?_, ?_, ?_⟩ <;> simp [bulk_insert_accounts, hfull]

/-- C10 witness: a failing bulk insert over a full batch of one record
drops the record, keeps the store, and reports the error. -/
theorem bulk_insert_clears_buffer_before_result_witness :
    (bulk_insert_accounts false ⟨1, [sampleRecordLow]⟩ (some sampleRecordHigh)
        ).1.pending_account_updates = [] ∧
    (bulk_insert_accounts false ⟨1, [sampleRecordLow]⟩ (some sampleRecordHigh)
        ).2.1 = some sampleRecordHigh := by
  obtain ⟨h1, _, h3, _, _⟩ := bulk_insert_clears_buffer_before_result
    ⟨1, [sampleRecordLow]⟩ (some sampleRecordHigh) rfl
  exact ⟨h1, h3⟩

/-! ### AccountsSelector (src/accounts_selector.rs) -/

/-- `AccountsSelectorConfig`: the raw config lists of base58 key strings. -/
structure AccountsSelectorConfig where
  accounts : Option (List String)
  owners : Option (List String)
  deriving Repr, DecidableEq

/-- `AccountsSelector`: decoded key sets plus the wildcard flag.  The
`HashSet<Vec<u8>>` fields are embedded as lists queried by membership. -/
structure AccountsSelector where
  accounts : List (List Nat)
  owners : List (List Nat)
  select_all_accounts : Bool
  deriving Repr, DecidableEq

/-- `AccountsSelector::new` (accounts_selector.rs lines 33-59).  The
external `bs58::decode` is passed in as `decode`. -/
def AccountsSelector.new (decode : String → List Nat)
    (config : AccountsSelectorConfig) : AccountsSelector :=
  let select_all_accounts := match config.accounts with
    | some accounts => accounts.any (fun key => key == "*")
    | none => false
  if select_all_accounts then
    { accounts := [], owners := [], select_all_accounts := select_all_accounts }
  else
    let owners := match config.owners with
      | some owners => owners.map decode
      | none => []
    let accounts := match config.accounts with
      | some accounts => accounts.map decode
      | none => []
    { accounts := accounts, owners := owners, select_all_accounts := select_all_accounts }

/-- `AccountsSelector::is_account_selected` (accounts_selector.rs lines
61-63). -/
def AccountsSelector.is_account_selected (s : AccountsSelector)
    (account owner : List Nat) : Bool :=
  s.select_all_accounts || s.accounts.contains account || s.owners.contains owner

/-- C5: `is_account_selected` is true iff the wildcard flag is set or the
pubkey is in the accounts set or the owner is in the owners set; a selector
built from a config whose accounts list contains "*" selects every input;
and an owners-only selector selects exactly the inputs whose owner decodes
from its configured owner string. -/
theorem is_account_selected_contract (decode : String → List Nat)
    (config : AccountsSelectorConfig) (accounts : List String) (ownerStr : String)
    (hacc : config.accounts = some accounts) (hstar : "*" ∈ accounts) :
    (∀ (s : AccountsSelector) (account owner : List Nat),
      s.is_account_selected account owner = true ↔
        s.select_all_accounts = true ∨ account ∈ s.accounts ∨ owner ∈ s.owners) ∧
    (∀ account owner : List Nat,
      (AccountsSelector.new decode config).is_account_selected account owner = true) ∧
    (∀ account : List Nat,
      (AccountsSelector.new decode ⟨none, some [ownerStr]⟩).is_account_selected
        account (decode ownerStr) = true) ∧
    (∀ account owner2 : List Nat, owner2 ≠ decode ownerStr →
      (AccountsSelector.new decode ⟨none, some [ownerStr]⟩).is_account_selected
        account owner2 = false) := by
  refine ⟨?_, ?_, ?_, ?_⟩
  · intro s account owner
    simp [AccountsSelector.is_account_selected, or_assoc]
  · intro account owner
    have hall : (match config.accounts with
        | some accounts => accounts.any (fun key => key == "*")
        | none => false) = true := by
      rw [hacc]
      simp only [List.any_eq_true, beq_iff_eq]
      exact ⟨"*", hstar, rfl⟩
    simp [AccountsSelector.new, hall, AccountsSelector.is_account_selected]
  · intro account
    simp [AccountsSelector.new, AccountsSelector.is_account_selected]
  · intro account owner2 hne
    simp [AccountsSelector.new, AccountsSelector.is_account_selected, hne]

/-- C5 witness: with a decode sending every string to its length-tagged
byte list, the wildcard config selects everything and the owners-only
config selects by owner. -/
theorem is_account_selected_contract_witness :
    (AccountsSelector.new (fun s => [s.length]) ⟨some ["*"], none⟩).is_account_selected
      [9] [9] = true ∧
    (AccountsSelector.new (fun s => [s.length]) ⟨none, some ["abc"]⟩).is_account_selected
      [9] [3] = true ∧
    (AccountsSelector.new (fun s => [s.length]) ⟨none, some ["abc"]⟩).is_account_selected
      [9] [4] = false := by
  obtain ⟨_, h2, _, _⟩ := is_account_selected_contract (fun s => [s.length])
    ⟨some ["*"], none⟩ ["*"] "abc" rfl (by decide)
  obtain ⟨_, _, h3, h4⟩ := is_account_selected_contract (fun s => [s.length])
    ⟨some ["*"], none⟩ ["*"] "abc" rfl (by decide)
  exact ⟨h2 [9] [9], h3 [9], h4 [9] [4] (by decide)⟩

/-! ### The work queue and the producer operations (src/parallel_client.rs) -/

/-- The payloads of `WorkRequest` as constructed by the producer operations
in parallel_client.rs.  The block metadata and transaction payloads are
built from host-owned `ReplicaBlockInfo`/`ReplicaTransactionInfo` values
(external collaborators); the fields the producer itself contributes —
the slot and the process-local transaction write version — are carried
explicitly. -/
inductive WorkRequest where
  | updateAccount (account : DbAccountInfo) (isStartup : Bool)
  | updateSlot (slot : Nat) (parent : Option Nat) (status : SlotStatus)
  | updateBlockMetadata (blockSlot : Nat)
  | logTransaction (slot : Nat) (writeVersion : Nat)
  deriving Repr, DecidableEq

/-- The bounded crossbeam channel, as seen by a producer `send`: the queue
contents plus whether the channel is disconnected (all receivers gone). -/
structure Channel where
  closed : Bool
  items : List WorkRequest
  deriving Repr, DecidableEq

/-- `Sender::send`: fails exactly when the channel is disconnected,
otherwise appends the item. -/
def channelSend (ch : Channel) (w : WorkRequest) : Except Unit Channel :=
  if ch.closed then .error () else .ok { ch with items := ch.items ++ [w] }

/-- `ReplicaAccountInfo` (host-provided, u64 fields). -/
structure ReplicaAccountInfo where
  pubkey : List Nat
  lamports : Nat
  owner : List Nat
  executable : Bool
  rent_epoch : Nat
  data : List Nat
  write_version : Nat
  deriving Repr, DecidableEq

/-- `DbAccountInfo::new` (mod.rs lines 93-108): cast the u64 fields to i64
and attach the slot. -/
def DbAccountInfo.new (account : ReplicaAccountInfo) (slot : Nat) : DbAccountInfo :=
  { pubkey := account.pubkey
    lamports := (account.lamports : Int)
    owner := account.owner
    executable := account.executable
    rent_epoch := (account.rent_epoch : Int)
    data := account.data
    slot := (slot : Int)
    write_version := (account.write_version : Int)
    txn_signature := none }

/-- `ParallelClient::update_account` (parallel_client.rs lines 119-145):
build the work item, send it once, and map a send failure to an
`AccountsUpdateError`. -/
def ParallelClient.update_account (ch : Channel) (account : ReplicaAccountInfo)
    (slot : Nat) (isStartup : Bool) : Except String Channel :=
  let wrkItem := WorkRequest.updateAccount (DbAccountInfo.new account slot) isStartup
  match channelSend ch wrkItem with
  | .error _ => .error "AccountsUpdateError: Failed to update the account"
  | .ok ch' => .ok ch'

/-- `ParallelClient::update_slot_status` (parallel_client.rs lines
147-154). -/
def ParallelClient.update_slot_status (ch : Channel) (slot : Nat)
    (parent : Option Nat) (status : SlotStatus) : Except String Channel :=
  match channelSend ch (.updateSlot slot parent status) with
  | .error _ => .error "SlotStatusUpdateError: Failed to update the slot"
  | .ok ch' => .ok ch'

/-- `ParallelClient::update_block_metadata` (parallel_client.rs lines
156-165). -/
def ParallelClient.update_block_metadata (ch : Channel) (blockSlot : Nat) :
    Except String Channel :=
  match channelSend ch (.updateBlockMetadata blockSlot) with
  | .error _ => .error "SlotStatusUpdateError: Failed to update the block metadata"
  | .ok ch' => .ok ch'

/-- `ParallelClient::log_transaction_info` (parallel_client.rs lines
187-199): bump the process-local transaction write version, build the
transaction work item with it, send once.  Returns the new counter with
the result. -/
def ParallelClient.log_transaction_info (ch : Channel)
    (transactionWriteVersion : Nat) (slot : Nat) : Nat × Except String Channel :=
  let wv := transactionWriteVersion + 1
  let wrkItem := WorkRequest.logTransaction slot wv
  match channelSend ch wrkItem with
  | .error _ => (wv, .error "SlotStatusUpdateError: Failed to update the transaction")
  | .ok ch' => (wv, .ok ch')

/-- C7: each producer operation sends its work item exactly once: when the
channel is closed it returns the corresponding error with the queue
untouched (no internal retry), and when the channel is open it returns Ok
having enqueued exactly its one work item. -/
theorem producer_send_error_propagation (ch : Channel) (account : ReplicaAccountInfo)
    (slot blockSlot wv : Nat) (parent : Option Nat) (status : SlotStatus) :
    (ch.closed = true →
      ParallelClient.update_account ch account slot true =
        .error "AccountsUpdateError: Failed to update the account" ∧
      ParallelClient.update_slot_status ch slot parent status =
        .error "SlotStatusUpdateError: Failed to update the slot" ∧
      ParallelClient.update_block_metadata ch blockSlot =
        .error "SlotStatusUpdateError: Failed to update the block metadata" ∧
      (ParallelClient.log_transaction_info ch wv slot).2 =
        .error "SlotStatusUpdateError: Failed to update the transaction") ∧
    (ch.closed = false →
      ParallelClient.update_account ch account slot true =
        .ok { ch with items :=
          ch.items ++ [.updateAccount (DbAccountInfo.new account slot) true] } ∧
      ParallelClient.update_slot_status ch slot parent status =
        .ok { ch with items := ch.items ++ [.updateSlot slot parent status] } ∧
      ParallelClient.update_block_metadata ch blockSlot =
        .ok { ch with items := ch.items ++ [.updateBlockMetadata blockSlot] } ∧
      ParallelClient.log_transaction_info ch wv slot =
        (wv + 1, .ok { ch with items := ch.items ++ [.logTransaction slot (wv + 1)] })) := by
  constructor
  · intro hclosed
    refine ⟨?_, ?_, ?_, ?_⟩ <;>
      simp [ParallelClient.update_account, ParallelClient.update_slot_status,
        ParallelClient.update_block_metadata, ParallelClient.log_transaction_info,
        channelSend, hclosed]
  · intro hopen
    refine ⟨?_, ?_, ?_, ?_⟩ <;>
      simp [ParallelClient.update_account, ParallelClient.update_slot_status,
        ParallelClient.update_block_metadata, ParallelClient.log_transaction_info,
        channelSend, hopen]

/-- C7 witness: on a closed empty channel the account update fails and on
an open empty channel it succeeds. -/
theorem producer_send_error_propagation_witness :
    ParallelClient.update_slot_status ⟨true, []⟩ 5 none .rooted =
      .error "SlotStatusUpdateError: Failed to update the slot" ∧
    ParallelClient.update_slot_status ⟨false, []⟩ 5 none .rooted =
      .ok ⟨false, [.updateSlot 5 none .rooted]⟩ := by
  have hc := producer_send_error_propagation ⟨true, []⟩
    ⟨[], 0, [], false, 0, [], 0⟩ 5 0 0 none .rooted
  have ho := producer_send_error_propagation ⟨false, []⟩
    ⟨[], 0, [], false, 0, [], 0⟩ 5 0 0 none .rooted
  exact ⟨(hc.1 rfl).2.1, by simpa using (ho.2 rfl).2.1⟩

/-! ### Startup skip floor (geyser_plugin_postgres.rs lines 218-223,
mod.rs lines 788-803) -/

/-- `SAFE_BATCH_STARTING_SLOT_CUSHION` (mod.rs line 37). -/
def SAFE_BATCH_STARTING_SLOT_CUSHION : Nat := 2 * 40960

/-- `PostgresClientBuilder::build_pararallel_postgres_client` floor
computation: when `skip_upsert_existing_accounts_at_startup` is set, read
the sink's highest available slot and move the cushion below it with
`saturating_sub` (on `Nat` this is plain truncated subtraction). -/
def build_batch_starting_slot (skipEnabled : Bool) (highestAvailableSlot : Nat) :
    Option Nat :=
  if skipEnabled then some (highestAvailableSlot - SAFE_BATCH_STARTING_SLOT_CUSHION)
  else none

/-- `GeyserPluginPostgres::update_account` (geyser_plugin_postgres.rs lines
218-269): drop startup updates under the batch starting slot, fail when no
client is connected, drop updates not chosen by the accounts selector, and
otherwise hand the record to `ParallelClient::update_account`. -/
def GeyserPluginPostgres.update_account (batchStartingSlot : Option Nat)
    (hasClient : Bool) (selector : Option AccountsSelector) (ch : Channel)
    (account : ReplicaAccountInfo) (slot : Nat) (isStartup : Bool) :
    Except String Channel :=
  if isStartup && (batchStartingSlot.map (fun slotLimit => decide (slot < slotLimit))).getD false then
    .ok ch
  else if !hasClient then
    .error "ConnectionError: Client not connected."
  else
    match selector with
    | none => .ok ch
    | some accountsSelector =>
      if !accountsSelector.is_account_selected account.pubkey account.owner then
        .ok ch
      else
        match ParallelClient.update_account ch account slot isStartup with
        | .error e => .error e
        | .ok ch' => .ok ch'

/-- C3: with startup skip enabled the floor is F = S − K for S the sink's
highest persisted slot and K the cushion; a startup update with slot < F
returns Ok with the queue untouched (no work item is built or enqueued,
the sink is never reached), a startup update with slot ≥ F is processed
exactly as it would be with no floor configured, and a non-startup update
is never affected by the floor. -/
theorem startup_skip_floor (S slot : Nat) (hasClient : Bool)
    (selector : Option AccountsSelector) (ch : Channel)
    (account : ReplicaAccountInfo) (F : Nat)
    (hF : build_batch_starting_slot true S = some F) :
    F = S - SAFE_BATCH_STARTING_SLOT_CUSHION ∧
    (slot < F →
      GeyserPluginPostgres.update_account (some F) hasClient selector ch
        account slot true = .ok ch) ∧
    (F ≤ slot →
      GeyserPluginPostgres.update_account (some F) hasClient selector ch
        account slot true =
      GeyserPluginPostgres.update_account none hasClient selector ch
        account slot true) ∧
    (GeyserPluginPostgres.update_account (some F) hasClient selector ch
        account slot false =
      GeyserPluginPostgres.update_account none hasClient selector ch
        account slot false) := by
  have hF' : F = S - SAFE_BATCH_STARTING_SLOT_CUSHION := by
    simpa [build_batch_starting_slot] using hF.symm
  refine ⟨hF', ?_, ?_, ?_⟩
  · intro hlt
    simp [GeyserPluginPostgres.update_account, hlt]
  · intro hge
    have : ¬ slot < F := not_lt.mpr hge
    simp [GeyserPluginPostgres.update_account, this]
  · simp [GeyserPluginPostgres.update_account]

/-- C3 witness: with highest slot S = 100000 the floor is 18080; a startup
update at slot 18079 is dropped with the queue unchanged, one at slot
18080 goes through the normal path, and a non-startup update at 18079 is
not skipped. -/
theorem startup_skip_floor_witness :
    (100000 : Nat) - SAFE_BATCH_STARTING_SLOT_CUSHION = 18080 ∧
    GeyserPluginPostgres.update_account (some 18080) true none ⟨false, []⟩
      ⟨[], 0, [], false, 0, [], 0⟩ 18079 true = .ok ⟨false, []⟩ ∧
    GeyserPluginPostgres.update_account (some 18080) true none ⟨false, []⟩
      ⟨[], 0, [], false, 0, [], 0⟩ 18080 true =
    GeyserPluginPostgres.update_account none true none ⟨false, []⟩
      ⟨[], 0, [], false, 0, [], 0⟩ 18080 true := by
  have h := startup_skip_floor 100000 18079 true none ⟨false, []⟩
    ⟨[], 0, [], false, 0, [], 0⟩ 18080 (by decide)
  have h' := startup_skip_floor 100000 18080 true none ⟨false, []⟩
    ⟨[], 0, [], false, 0, [], 0⟩ 18080 (by decide)
  exact ⟨by decide, h.2.1 (by decide), h'.2.2.1 (by decide)⟩

/-! ### The end-of-startup barrier (parallel_client.rs lines 167-185) -/

/-- Per-worker state during startup replay: whether the worker has
connected and bumped the initialized-worker counter, its buffered startup
batch and buffered slot set (sizes), whether it has flushed them, and
whether it has bumped the startup-done counter. -/
structure WorkerState where
  inited : Bool
  pendingAccounts : Nat
  pendingSlots : Nat
  flushed : Bool
  counted : Bool
  deriving Repr, DecidableEq

/-- The phase of the producer thread inside `notify_end_of_startup`:
spinning until the queue is empty, spinning until the counters match, or
returned. -/
inductive ProducerPhase where
  | waitQueue
  | waitWorkers
  | returned
  deriving Repr, DecidableEq

/-- The shared state of the barrier protocol: the queue length, the two
shared atomic flags (`is_startup_done` and the ghost record that the queue
was observed empty before the flag was set), the two shared counters, the
worker pool, and the producer phase. -/
structure BarrierSys where
  queueLen : Nat
  isStartupDone : Bool
  observedEmptyQueue : Bool
  startupDoneCount : Nat
  initedWorkerCount : Nat
  workers : List WorkerState
  producer : ProducerPhase
  deriving Repr, DecidableEq

/-- Modelled from the spec: the worker loop `ParallelClientWorker::do_work`
lives in `src/parallel_client_worker.rs`, which is declared in lib.rs but
is not part of the available sources; its transitions follow spec §4.4 —
a worker increments the initialized count once connected, buffers startup
work items pulled from the queue, and upon observing `is_startup_done`
flushes its buffered batch and buffered slots and then increments the
startup-done count.  The producer transitions embed
`ParallelClient::notify_end_of_startup` (parallel_client.rs lines
167-185): spin until the sender queue is empty, store `is_startup_done`,
spin until `startup_done_count` equals `initialized_worker_count`, then
return. -/
inductive BarrierStep : BarrierSys → BarrierSys → Prop where
  | setStartupDone (s : BarrierSys) (hp : s.producer = .waitQueue)
      (hq : s.queueLen = 0) :
      BarrierStep s { s with producer := .waitWorkers, isStartupDone := true,
                             observedEmptyQueue := true }
  | producerReturn (s : BarrierSys) (hp : s.producer = .waitWorkers)
      (hc : s.startupDoneCount = s.initedWorkerCount) :
      BarrierStep s { s with producer := .returned }
  | workerConnect (s : BarrierSys) (pre post : List WorkerState) (w : WorkerState)
      (hw : s.workers = pre ++ w :: post) (h : w.inited = false) :
      BarrierStep s { s with workers := pre ++ { w with inited := true } :: post,
                             initedWorkerCount := s.initedWorkerCount + 1 }
  | workerBuffer (s : BarrierSys) (pre post : List WorkerState) (w : WorkerState)
      (hw : s.workers = pre ++ w :: post) (hinit : w.inited = true)
      (hq : 0 < s.queueLen) :
      BarrierStep s { s with queueLen := s.queueLen - 1,
                             workers := pre ++
                               { w with pendingAccounts := w.pendingAccounts + 1,
                                        pendingSlots := w.pendingSlots + 1 } :: post }
  | workerFlush (s : BarrierSys) (pre post : List WorkerState) (w : WorkerState)
      (hw : s.workers = pre ++ w :: post) (hinit : w.inited = true)
      (hflag : s.isStartupDone = true) (hfl : w.flushed = false) :
      BarrierStep s { s with workers := pre ++
                               { w with flushed := true,
                                        pendingAccounts := 0,
                                        pendingSlots := 0 } :: post }
  | workerBumpDone (s : BarrierSys) (pre post : List WorkerState) (w : WorkerState)
      (hw : s.workers = pre ++ w :: post) (hfl : w.flushed = true)
      (hc : w.counted = false) :
      BarrierStep s { s with workers := pre ++ { w with counted := true } :: post,
                             startupDoneCount := s.startupDoneCount + 1 }

/-- Reflexive-transitive closure of `BarrierStep`. -/
inductive BarrierReach : BarrierSys → BarrierSys → Prop where
  | refl (s : BarrierSys) : BarrierReach s s
  | tail {a b c : BarrierSys} (h : BarrierReach a b) (hs : BarrierStep b c) :
      BarrierReach a c

/-- A state at entry of `notify_end_of_startup`: the producer is about to
poll the queue, the flag is unset, no worker has flushed or bumped the
startup-done counter yet, and the counters agree with the pool. -/
def BarrierInit (s : BarrierSys) : Prop :=
  s.producer = .waitQueue ∧ s.isStartupDone = false ∧
  s.observedEmptyQueue = false ∧ s.startupDoneCount = 0 ∧
  s.initedWorkerCount = s.workers.countP (fun w => w.inited) ∧
  ∀ w ∈ s.workers, w.flushed = false ∧ w.counted = false

instance (s : BarrierSys) : Decidable (BarrierInit s) := by
  unfold BarrierInit; infer_instance

/-- Inductive invariant of the barrier protocol. -/
def BarrierInv (s : BarrierSys) : Prop :=
  s.startupDoneCount = s.workers.countP (fun w => w.counted) ∧
  s.initedWorkerCount = s.workers.countP (fun w => w.inited) ∧
  (∀ w ∈ s.workers, w.counted = true → w.flushed = true) ∧
  (∀ w ∈ s.workers, w.flushed = true →
      w.inited = true ∧ w.pendingAccounts = 0 ∧ w.pendingSlots = 0 ∧
      s.isStartupDone = true) ∧
  (s.isStartupDone = true → s.queueLen = 0 ∧ s.observedEmptyQueue = true) ∧
  (s.producer ≠ .waitQueue → s.isStartupDone = true)

theorem countP_middle {α : Type} (p : α → Bool) (pre post : List α) (w : α) :
    (pre ++ w :: post).countP p =
      pre.countP p + post.countP p + (if p w then 1 else 0) := by
  cases hpw : p w
  · simp only [List.countP_append, List.countP_cons, hpw]
    omega
  · simp only [List.countP_append, List.countP_cons, hpw]
    omega

theorem mem_middle_cases {α : Type} {x w : α} {pre post : List α}
    (hx : x ∈ pre ++ w :: post) : x ∈ pre ∨ x = w ∨ x ∈ post := by
  rcases List.mem_append.mp hx with h | h
  · exact Or.inl h
  · rcases List.mem_cons.mp h with h | h
    · exact Or.inr (Or.inl h)
    · exact Or.inr (Or.inr h)

theorem mem_middle_of_left {α : Type} {x w : α} {pre post : List α} (h : x ∈ pre) :
    x ∈ pre ++ w :: post :=
  List.mem_append.mpr (Or.inl h)

theorem mem_middle_self {α : Type} (w : α) (pre post : List α) :
    w ∈ pre ++ w :: post :=
  List.mem_append.mpr (Or.inr (List.mem_cons_self w post))

theorem mem_middle_of_right {α : Type} {x w : α} {pre post : List α} (h : x ∈ post) :
    x ∈ pre ++ w :: post :=
  List.mem_append.mpr (Or.inr (List.mem_cons_of_mem w h))

theorem countP_le_of_imp {α : Type} {l : List α} {p q : α → Bool}
    (himp : ∀ x ∈ l, p x = true → q x = true) : l.countP p ≤ l.countP q := by
  induction l with
  | nil => simp
  | cons a l ih =>
    simp only [List.countP_cons]
    have h1 : l.countP p ≤ l.countP q :=
      ih (fun x hx => himp x (List.mem_cons_of_mem a hx))
    have h2 : (if p a = true then 1 else 0) ≤ (if q a = true then 1 else 0) := by
      by_cases hpa : p a = true
      · rw [if_pos hpa, if_pos (himp a (List.mem_cons_self a l) hpa)]
      · rw [if_neg hpa]
        omega
    omega

theorem countP_lt_of_missing {α : Type} {l : List α} {p q : α → Bool}
    (himp : ∀ x ∈ l, p x = true → q x = true)
    (hex : ∃ x ∈ l, q x = true ∧ p x = false) :
    l.countP p < l.countP q := by
  induction l with
  | nil => obtain ⟨x, hx, _⟩ := hex; exact absurd hx (List.not_mem_nil x)
  | cons a l ih =>
    simp only [List.countP_cons]
    have himp' : ∀ x ∈ l, p x = true → q x = true :=
      fun x hx => himp x (List.mem_cons_of_mem a hx)
    obtain ⟨x, hx, hqx, hpx⟩ := hex
    rcases List.mem_cons.mp hx with hxa | hxl
    · subst hxa
      have h1 : l.countP p ≤ l.countP q := countP_le_of_imp himp'
      rw [if_pos hqx, if_neg (by simp [hpx])]
      omega
    · have h1 : l.countP p < l.countP q := ih himp' ⟨x, hxl, hqx, hpx⟩
      have h2 : (if p a = true then 1 else 0) ≤ (if q a = true then 1 else 0) := by
        by_cases hpa : p a = true
        · rw [if_pos hpa, if_pos (himp a (List.mem_cons_self a l) hpa)]
        · rw [if_neg hpa]
          omega
      omega

theorem barrierInv_init {s : BarrierSys} (h : BarrierInit s) : BarrierInv s := by
  obtain ⟨hp, hflag, _, hdone, hinit, hw⟩ := h
  refine ⟨?_, hinit, ?_, ?_, ?_, ?_⟩
  · rw [hdone]
    symm
    rw [List.countP_eq_zero]
    intro w hw'
    simp [(hw w hw').2]
  · intro w hw' hcnt
    exact absurd hcnt (by simp [(hw w hw').2])
  · intro w hw' hfl
    exact absurd hfl (by simp [(hw w hw').1])
  · intro h'
    rw [hflag] at h'
    cases h'
  · intro h'
    exact absurd hp h'

theorem countP_update_eq {p : WorkerState → Bool} {pre post : List WorkerState}
    {w w' : WorkerState} (hpw : p w' = p w) :
    (pre ++ w' :: post).countP p = (pre ++ w :: post).countP p := by
  rw [countP_middle, countP_middle, hpw]

theorem barrierInv_step {s s' : BarrierSys} (hinv : BarrierInv s)
    (hstep : BarrierStep s s') : BarrierInv s' := by
  obtain ⟨ha, hb, hc, hd, he, hf⟩ := hinv
  cases hstep with
  | setStartupDone hp hq =>
    refine ⟨ha, hb, hc, ?_, ?_, ?_⟩
    · intro w hw hfl
      obtain ⟨h1, h2, h3, _⟩ := hd w hw hfl
      exact ⟨h1, h2, h3, rfl⟩
    · intro _
      exact ⟨hq, rfl⟩
    · intro _
      rfl
  | producerReturn hp hcnt =>
    refine ⟨ha, hb, hc, hd, he, ?_⟩
    · intro _
      refine hf ?_
      rw [hp]
      intro h'
      cases h'
  | workerConnect pre post w hw h =>
    refine ⟨?_, ?_, ?_, ?_, he, hf⟩
    · rw [ha, hw]
      exact (@countP_update_eq (fun x => x.counted) pre post w
        { w with inited := true } rfl).symm
    · show s.initedWorkerCount + 1 =
        (pre ++ { w with inited := true } :: post).countP (fun x => x.inited)
      rw [hb, hw, countP_middle, countP_middle]
      simp [h]
    · intro x hx hcx
      rcases mem_middle_cases hx with hxm | hxm | hxm
      · exact hc x (hw ▸ mem_middle_of_left hxm) hcx
      · subst hxm
        exact hc w (hw ▸ mem_middle_self w pre post) hcx
      · exact hc x (hw ▸ mem_middle_of_right hxm) hcx
    · intro x hx hfx
      rcases mem_middle_cases hx with hxm | hxm | hxm
      · exact hd x (hw ▸ mem_middle_of_left hxm) hfx
      · subst hxm
        obtain ⟨_, h2, h3, h4⟩ := hd w (hw ▸ mem_middle_self w pre post) hfx
        exact ⟨rfl, h2, h3, h4⟩
      · exact hd x (hw ▸ mem_middle_of_right hxm) hfx
  | workerBuffer pre post w hw hinit hq =>
    have hflagfalse : s.isStartupDone = false := by
      cases hflag : s.isStartupDone
      · rfl
      · have := (he hflag).1
        omega
    have hnoflush : ∀ x ∈ s.workers, x.flushed = false := by
      intro x hx
      cases hfx : x.flushed
      · rfl
      · have := (hd x hx hfx).2.2.2
        rw [hflagfalse] at this
        cases this
    refine ⟨?_, ?_, ?_, ?_, ?_, ?_⟩
    · rw [ha, hw]
      exact (@countP_update_eq (fun x => x.counted) pre post w
        { w with pendingAccounts := w.pendingAccounts + 1,
                 pendingSlots := w.pendingSlots + 1 } rfl).symm
    · rw [hb, hw]
      exact (@countP_update_eq (fun x => x.inited) pre post w
        { w with pendingAccounts := w.pendingAccounts + 1,
                 pendingSlots := w.pendingSlots + 1 } rfl).symm
    · intro x hx hcx
      rcases mem_middle_cases hx with hxm | hxm | hxm
      · exact hc x (hw ▸ mem_middle_of_left hxm) hcx
      · subst hxm
        exact hc w (hw ▸ mem_middle_self w pre post) hcx
      · exact hc x (hw ▸ mem_middle_of_right hxm) hcx
    · intro x hx hfx
      rcases mem_middle_cases hx with hxm | hxm | hxm
      · have := hnoflush x (hw ▸ mem_middle_of_left hxm)
        rw [hfx] at this
        cases this
      · subst hxm
        have hfw := hnoflush w (hw ▸ mem_middle_self w pre post)
        have hfx' : w.flushed = true := hfx
        rw [hfx'] at hfw
        cases hfw
      · have := hnoflush x (hw ▸ mem_middle_of_right hxm)
        rw [hfx] at this
        cases this
    · intro h'
      have h'' : s.isStartupDone = true := h'
      rw [hflagfalse] at h''
      cases h''
    · intro h'
      exact hf h'
  | workerFlush pre post w hw hinit hflag hfl =>
    refine ⟨?_, ?_, ?_, ?_, he, hf⟩
    · rw [ha, hw]
      exact (@countP_update_eq (fun x => x.counted) pre post w
        { w with flushed := true, pendingAccounts := 0, pendingSlots := 0 } rfl).symm
    · rw [hb, hw]
      exact (@countP_update_eq (fun x => x.inited) pre post w
        { w with flushed := true, pendingAccounts := 0, pendingSlots := 0 } rfl).symm
    · intro x hx hcx
      rcases mem_middle_cases hx with hxm | hxm | hxm
      · exact hc x (hw ▸ mem_middle_of_left hxm) hcx
      · subst hxm
        rfl
      · exact hc x (hw ▸ mem_middle_of_right hxm) hcx
    · intro x hx hfx
      rcases mem_middle_cases hx with hxm | hxm | hxm
      · exact hd x (hw ▸ mem_middle_of_left hxm) hfx
      · subst hxm
        exact ⟨hinit, rfl, rfl, hflag⟩
      · exact hd x (hw ▸ mem_middle_of_right hxm) hfx
  | workerBumpDone pre post w hw hfl hcnt =>
    refine ⟨?_, ?_, ?_, ?_, he, hf⟩
    · show s.startupDoneCount + 1 =
        (pre ++ { w with counted := true } :: post).countP (fun x => x.counted)
      rw [ha, hw, countP_middle, countP_middle]
      simp [hcnt]
    · rw [hb, hw]
      exact (@countP_update_eq (fun x => x.inited) pre post w
        { w with counted := true } rfl).symm
    · intro x hx hcx
      rcases mem_middle_cases hx with hxm | hxm | hxm
      · exact hc x (hw ▸ mem_middle_of_left hxm) hcx
      · subst hxm
        exact hfl
      · exact hc x (hw ▸ mem_middle_of_right hxm) hcx
    · intro x hx hfx
      rcases mem_middle_cases hx with hxm | hxm | hxm
      · exact hd x (hw ▸ mem_middle_of_left hxm) hfx
      · subst hxm
        exact hd w (hw ▸ mem_middle_self w pre post) hfx
      · exact hd x (hw ▸ mem_middle_of_right hxm) hfx

theorem barrierInv_reach {s0 s : BarrierSys} (h0 : BarrierInit s0)
    (h : BarrierReach s0 s) : BarrierInv s := by
  induction h with
  | refl => exact barrierInv_init h0
  | tail h hs ih => exact barrierInv_step ih hs

/-- C4: the return step of `notify_end_of_startup` can only fire from a
reachable state in which the queue was observed empty before the
`is_startup_done` flag was set, the flag is set, the startup-done counter
equals the initialized-worker counter, and every worker that bumped the
initialized count has flushed its buffered account batch and buffered
slots and bumped the completion counter; while the counters differ the
call cannot return. -/
theorem notify_end_of_startup_barrier (s0 s s' : BarrierSys)
    (h0 : BarrierInit s0) (hreach : BarrierReach s0 s) (hstep : BarrierStep s s')
    (hp : s.producer = .waitWorkers) (hp' : s'.producer = .returned) :
    s.isStartupDone = true ∧ s.observedEmptyQueue = true ∧ s.queueLen = 0 ∧
    s.startupDoneCount = s.initedWorkerCount ∧
    ∀ w ∈ s.workers, w.inited = true →
      w.flushed = true ∧ w.counted = true ∧
      w.pendingAccounts = 0 ∧ w.pendingSlots = 0 := by
  obtain ⟨ha, hb, hc, hd, he, hf⟩ := barrierInv_reach h0 hreach
  have hflag : s.isStartupDone = true := by
    refine hf ?_
    rw [hp]
    intro h
    cases h
  have hqueue := he hflag
  have hcnt : s.startupDoneCount = s.initedWorkerCount := by
    cases hstep with
    | setStartupDone hp2 hq =>
      rw [hp] at hp2
      cases hp2
    | producerReturn hp2 hcnt => exact hcnt
    | workerConnect pre post w hw h =>
      have hret : s.producer = .returned := hp'
      rw [hp] at hret
      cases hret
    | workerBuffer pre post w hw hinit hq =>
      have hret : s.producer = .returned := hp'
      rw [hp] at hret
      cases hret
    | workerFlush pre post w hw hinit hflag2 hfl =>
      have hret : s.producer = .returned := hp'
      rw [hp] at hret
      cases hret
    | workerBumpDone pre post w hw hfl hcnt2 =>
      have hret : s.producer = .returned := hp'
      rw [hp] at hret
      cases hret
  have himp : ∀ x ∈ s.workers,
      (fun x : WorkerState => x.counted) x = true →
      (fun x : WorkerState => x.inited) x = true :=
    fun x hx hcx => (hd x hx (hc x hx hcx)).1
  have hall : ∀ x ∈ s.workers, x.inited = true → x.counted = true := by
    by_contra hcon
    push_neg at hcon
    obtain ⟨x, hx, hix, hcx⟩ := hcon
    have hcx' : x.counted = false := by
      cases hxx : x.counted
      · rfl
      · exact absurd hxx hcx
    have hlt := countP_lt_of_missing himp ⟨x, hx, hix, hcx'⟩
    rw [← ha, ← hb] at hlt
    omega
  refine ⟨hflag, hqueue.2, hqueue.1, hcnt, ?_⟩
  intro w hw hiw
  have hcw := hall w hw hiw
  have hfw := hc w hw hcw
  obtain ⟨_, hpa, hps, _⟩ := hd w hw hfw
  exact ⟨hfw, hcw, hpa, hps⟩

/-- A one-worker demonstration run of the barrier protocol, used as the
concrete witness for the barrier theorem. -/
def demoWorker : WorkerState :=
  { inited := true, pendingAccounts := 0, pendingSlots := 0,
    flushed := false, counted := false }

def demoBarrier0 : BarrierSys :=
  { queueLen := 0, isStartupDone := false, observedEmptyQueue := false,
    startupDoneCount := 0, initedWorkerCount := 1, workers := [demoWorker],
    producer := .waitQueue }

def demoBarrier1 : BarrierSys :=
  { demoBarrier0 with producer := .waitWorkers, isStartupDone := true,
                      observedEmptyQueue := true }

def demoBarrier2 : BarrierSys :=
  { demoBarrier1 with workers :=
      [{ demoWorker with flushed := true, pendingAccounts := 0, pendingSlots := 0 }] }

def demoBarrier3 : BarrierSys :=
  { demoBarrier2 with startupDoneCount := 1,
                      workers :=
                        [{ inited := true, pendingAccounts := 0, pendingSlots := 0,
                           flushed := true, counted := true }] }

def demoBarrier4 : BarrierSys :=
  { demoBarrier3 with producer := .returned }

/-- C4 witness: the one-worker run — flag set after the empty queue is
observed, worker flushes, worker bumps the counter, producer returns —
satisfies the barrier conclusions at the state where the return step
fires. -/
theorem notify_end_of_startup_barrier_witness :
    demoBarrier3.isStartupDone = true ∧ demoBarrier3.observedEmptyQueue = true ∧
    demoBarrier3.queueLen = 0 ∧
    demoBarrier3.startupDoneCount = demoBarrier3.initedWorkerCount ∧
    ∀ w ∈ demoBarrier3.workers, w.inited = true →
      w.flushed = true ∧ w.counted = true ∧
      w.pendingAccounts = 0 ∧ w.pendingSlots = 0 := by
  have h01 : BarrierStep demoBarrier0 demoBarrier1 :=
    BarrierStep.setStartupDone demoBarrier0 rfl rfl
  have h12 : BarrierStep demoBarrier1 demoBarrier2 :=
    BarrierStep.workerFlush demoBarrier1 [] [] demoWorker rfl rfl rfl rfl
  have h23 : BarrierStep demoBarrier2 demoBarrier3 :=
    BarrierStep.workerBumpDone demoBarrier2 [] []
      { demoWorker with flushed := true, pendingAccounts := 0, pendingSlots := 0 }
      rfl rfl rfl
  have h34 : BarrierStep demoBarrier3 demoBarrier4 :=
    BarrierStep.producerReturn demoBarrier3 rfl rfl
  exact notify_end_of_startup_barrier demoBarrier0 demoBarrier3 demoBarrier4
    (by decide)
    (BarrierReach.tail (BarrierReach.tail
      (BarrierReach.tail (BarrierReach.refl demoBarrier0) h01) h12) h23)
    h34 rfl rfl
